import Mathlib

/-!
Verification of the debugSerial library (ATmega328PB UART1 transmit driver).

The development shallowly embeds the C sources (`debugSerial.h`,
`debugSerial.cpp`): the ring buffer becomes a Lean structure with explicit
state passing, the `char` array is modelled as a total function from indices
to bytes (all accesses stay below `DEBUG_BUFFER_SIZE`), `uint8_t` cursors
become `Nat` (their values never reach 256, so unsigned wrap never engages),
and the hardware registers touched by the driver (the `UDRIE1` bit of
`UCSR1B`, the global interrupt flag `I` of `SREG`, writes to `UDR1`) become
fields of a driver state plus an explicit trace of device operations.
Formatting routines are embedded as pure functions returning the list of
bytes they pass to `uart1_print_char`, in order.
-/

namespace DebugSerial

/-- `#define DEBUG_BUFFER_SIZE 100` from `debugSerial.h`. -/
def DEBUG_BUFFER_SIZE : Nat := 100

/-- The `debugRingBuffer_t` struct from `debugSerial.h`: a `char` array of
`DEBUG_BUFFER_SIZE` cells (modelled as a total function on indices) and the
`volatile uint8_t` head/tail cursors (modelled as `Nat`; every value the code
stores in them is `< DEBUG_BUFFER_SIZE`, so the `uint8_t` wrap at 256 never
engages). -/
structure debugRingBuffer_t where
  debugBuffer : Nat → Char
  debugHead : Nat
  debugTail : Nat

/-- `debug_buffer_init`: sets head and tail to zero. -/
def debug_buffer_init (buf : debugRingBuffer_t) : debugRingBuffer_t :=
  { buf with debugHead := 0, debugTail := 0 }

/-- `debug_buffer_is_empty`: head equals tail. -/
def debug_buffer_is_empty (buf : debugRingBuffer_t) : Bool :=
  buf.debugHead == buf.debugTail

/-- `debug_buffer_is_full`: `(head + 1) % DEBUG_BUFFER_SIZE == tail`. -/
def debug_buffer_is_full (buf : debugRingBuffer_t) : Bool :=
  (buf.debugHead + 1) % DEBUG_BUFFER_SIZE == buf.debugTail

/-- `debug_buffer_put`: if the buffer is not full, stores `data` at
`debugBuffer[debugHead]` and advances the head modulo `DEBUG_BUFFER_SIZE`;
otherwise leaves the buffer untouched.  The C function returns `void`; the
`Bool` component records which branch ran, i.e. whether the byte was stored
(`false` exactly on the silent-drop path). -/
def debug_buffer_put (buf : debugRingBuffer_t) (data : Char) :
    debugRingBuffer_t × Bool :=
  if !debug_buffer_is_full buf then
    ({ buf with
        debugBuffer := fun i => if i = buf.debugHead then data else buf.debugBuffer i,
        debugHead := (buf.debugHead + 1) % DEBUG_BUFFER_SIZE }, true)
  else
    (buf, false)

/-- `debug_buffer_get`: if the buffer is not empty, reads
`debugBuffer[debugTail]`, advances the tail modulo `DEBUG_BUFFER_SIZE` and
returns the byte (`some`); on an empty buffer returns `none` and leaves the
state untouched (the C function returns `false` and does not write `*data`). -/
def debug_buffer_get (buf : debugRingBuffer_t) :
    debugRingBuffer_t × Option Char :=
  if !debug_buffer_is_empty buf then
    ({ buf with debugTail := (buf.debugTail + 1) % DEBUG_BUFFER_SIZE },
      some (buf.debugBuffer buf.debugTail))
  else
    (buf, none)

/-- Number of queued bytes: `(head + C - tail) % C`. -/
def bufCount (buf : debugRingBuffer_t) : Nat :=
  (buf.debugHead + DEBUG_BUFFER_SIZE - buf.debugTail) % DEBUG_BUFFER_SIZE

/-- The queued bytes in FIFO order, read from `tail` towards `head`. -/
def bufContents (buf : debugRingBuffer_t) : List Char :=
  (List.range (bufCount buf)).map
    (fun i => buf.debugBuffer ((buf.debugTail + i) % DEBUG_BUFFER_SIZE))

/-- Cursor bounds maintained by the ring buffer code. -/
def bufInv (buf : debugRingBuffer_t) : Prop :=
  buf.debugHead < DEBUG_BUFFER_SIZE ∧ buf.debugTail < DEBUG_BUFFER_SIZE

/-- One ring-buffer operation of an interleaved put/get sequence. -/
inductive BufOp where
  | put (c : Char)
  | get
  deriving DecidableEq

/-- Runs a sequence of interleaved `debug_buffer_put` / `debug_buffer_get`
calls, collecting the bytes the gets return.  Yields `none` as soon as a
`put` hits a full buffer or a `get` hits an empty buffer, so a `some` result
certifies that the sequence never over- or underflowed. -/
def runOps (buf : debugRingBuffer_t) :
    List BufOp → Option (debugRingBuffer_t × List Char)
  | [] => some (buf, [])
  | BufOp.put c :: ops =>
    match debug_buffer_put buf c with
    | (buf2, true) => runOps buf2 ops
    | (_, false) => none
  | BufOp.get :: ops =>
    match debug_buffer_get buf with
    | (buf2, some c) => (runOps buf2 ops).map (fun p => (p.1, c :: p.2))
    | (_, none) => none

/-- The bytes passed to `put` by a sequence of operations, in order. -/
def putArgs : List BufOp → List Char
  | [] => []
  | BufOp.put c :: ops => c :: putArgs ops
  | BufOp.get :: ops => putArgs ops

/-- Folds `debug_buffer_put` over a list of bytes; the `Bool` is true iff
every single put stored its byte. -/
def putAll (buf : debugRingBuffer_t) : List Char → debugRingBuffer_t × Bool
  | [] => (buf, true)
  | c :: cs =>
    let r := debug_buffer_put buf c
    let r2 := putAll r.1 cs
    (r2.1, r.2 && r2.2)

/-- Buffer states reachable from an initialized buffer by the ring-buffer
operations (`debug_buffer_is_empty` / `debug_buffer_is_full` do not mutate). -/
inductive Reachable : debugRingBuffer_t → Prop where
  | init (buf : debugRingBuffer_t) : Reachable (debug_buffer_init buf)
  | put (buf : debugRingBuffer_t) (c : Char) :
      Reachable buf → Reachable (debug_buffer_put buf c).1
  | get (buf : debugRingBuffer_t) :
      Reachable buf → Reachable (debug_buffer_get buf).1

/-- An operation `uart1_print_char` or the drain ISR performs on the UART
device registers: setting the `UDRIE1` bit (arm), clearing it (disarm), or
writing a byte to `UDR1`. -/
inductive DevOp where
  | arm
  | disarm
  | write (c : Char)
  deriving DecidableEq

/-- Driver-visible machine state: the transmit ring buffer `debugTxBuffer`,
the `UDRIE1` bit of `UCSR1B` (data-register-empty interrupt enable), and the
global interrupt flag `I` of `SREG` toggled by `cli()`/`sei()`. -/
structure DriverState where
  buf : debugRingBuffer_t
  udrie : Bool
  intEnabled : Bool

/-- `cli()`: clears the global interrupt flag. -/
def cli (s : DriverState) : DriverState :=
  { s with intEnabled := false }

/-- `sei()`: sets the global interrupt flag. -/
def sei (s : DriverState) : DriverState :=
  { s with intEnabled := true }

/-- Body of `uart1_print_char` between `cli()` and `sei()`: remembers whether
the buffer was empty, puts the byte, and if the buffer was empty sets
`UDRIE1` (`UCSR1B |= (1 << UDRIE1)`), recorded as a `DevOp.arm`. -/
def uart1_critical (s : DriverState) (data : Char) : DriverState × List DevOp :=
  let was_empty := debug_buffer_is_empty s.buf
  let s2 := { s with buf := (debug_buffer_put s.buf data).1 }
  if was_empty then ({ s2 with udrie := true }, [DevOp.arm]) else (s2, [])

/-- `uart1_print_char`: `cli()`, the critical body, then `sei()`. -/
def uart1_print_char (s : DriverState) (data : Char) : DriverState × List DevOp :=
  let r := uart1_critical (cli s) data
  (sei r.1, r.2)

/-- `ISR(USART1_UDRE_vect)`: gets a byte from the buffer; on success writes
it to `UDR1` (recorded as `DevOp.write`), otherwise clears `UDRIE1`
(`UCSR1B &= ~(1 << UDRIE1)`, recorded as `DevOp.disarm`). -/
def udre_isr (s : DriverState) : DriverState × List DevOp :=
  match debug_buffer_get s.buf with
  | (buf2, some c) => ({ s with buf := buf2 }, [DevOp.write c])
  | (buf2, none) => ({ s with buf := buf2, udrie := false }, [DevOp.disarm])

/-- Two's-complement wraparound of an integer into the `int32_t` range,
used to model the overflowing negation `value = -value` in `debugPrintInt`. -/
def wrap32 (n : Int) : Int :=
  (n + 2 ^ 31) % 2 ^ 32 - 2 ^ 31

/-- The digit-extraction loop of `debugPrintInt`:
`while (value > 0) { digits[count++] = '0' + (value % 10); value /= 10; }`.
Returns the digit characters least-significant-first, as stored in `digits`.
(`%` and `/` on a positive `int32_t` agree with `Int.emod` / `Int.ediv`.) -/
def intDigits (v : Int) : List Char :=
  if 0 < v then
    Char.ofNat (Char.toNat '0' + (v % 10).toNat) :: intDigits (v / 10)
  else []
termination_by v.toNat
decreasing_by
  simp_wf
  omega

/-- `debugPrintInt`, embedded as the list of bytes it passes to
`uart1_print_char`, in order: a minus sign and wrapping negation for negative
input, `'0'` when the (possibly negated) value is zero, otherwise the
extracted digits emitted most-significant-first
(`while (count > 0) uart1_print_char(digits[--count]);`). -/
def debugPrintInt (value : Int) : List Char :=
  let pre : List Char := if value < 0 then ['-'] else []
  let v : Int := if value < 0 then wrap32 (-value) else value
  if v = 0 then pre ++ ['0']
  else pre ++ (intDigits v).reverse

/-! ## Concrete sample states for witnesses -/

/-- A concrete buffer state (arbitrary storage, nonzero cursors). -/
def sampleBuffer : debugRingBuffer_t :=
  { debugBuffer := fun _ => ' ', debugHead := 37, debugTail := 91 }

/-- A concrete interleaved put/get sequence that never over/underflows. -/
def sampleOps : List BufOp :=
  [BufOp.put 'h', BufOp.put 'i', BufOp.get, BufOp.put '!', BufOp.get, BufOp.get]

/-- Final state and collected output of running `sampleOps` from an
initialized `sampleBuffer`. -/
def sampleRun : debugRingBuffer_t × List Char :=
  (runOps (debug_buffer_init sampleBuffer) sampleOps).getD (sampleBuffer, [])

/-- 99 bytes, one less than the buffer capacity. -/
def sampleFill : List Char := List.replicate 99 'a'

/-- A concrete driver state whose global interrupt flag is clear, as after a
surrounding `cli()`. -/
def sampleState : DriverState :=
  { buf := debug_buffer_init sampleBuffer, udrie := false, intEnabled := false }

/-! ## Helper lemmas -/

theorem intDigits_step (v : Int) (h : 0 < v) :
    intDigits v = Char.ofNat (Char.toNat '0' + (v % 10).toNat) :: intDigits (v / 10) := by
  rw [intDigits.eq_def]
  simp [h]

theorem intDigits_nil (v : Int) (h : v ≤ 0) : intDigits v = [] := by
  rw [intDigits.eq_def]
  simp
  omega

theorem put_eq_of_full (b : debugRingBuffer_t) (c : Char)
    (hf : debug_buffer_is_full b = true) : debug_buffer_put b c = (b, false) := by
  simp [debug_buffer_put, hf]

theorem put_eq_of_not_full (b : debugRingBuffer_t) (c : Char)
    (hf : debug_buffer_is_full b = false) :
    debug_buffer_put b c =
      ({ b with
          debugBuffer := fun i => if i = b.debugHead then c else b.debugBuffer i,
          debugHead := (b.debugHead + 1) % DEBUG_BUFFER_SIZE }, true) := by
  simp [debug_buffer_put, hf]

theorem get_eq_of_empty (b : debugRingBuffer_t)
    (he : debug_buffer_is_empty b = true) : debug_buffer_get b = (b, none) := by
  simp [debug_buffer_get, he]

theorem get_eq_of_not_empty (b : debugRingBuffer_t)
    (he : debug_buffer_is_empty b = false) :
    debug_buffer_get b =
      ({ b with debugTail := (b.debugTail + 1) % DEBUG_BUFFER_SIZE },
        some (b.debugBuffer b.debugTail)) := by
  simp [debug_buffer_get, he]

theorem is_full_false_iff (b : debugRingBuffer_t) :
    debug_buffer_is_full b = false ↔
      (b.debugHead + 1) % DEBUG_BUFFER_SIZE ≠ b.debugTail := by
  simp [debug_buffer_is_full]

theorem is_empty_false_iff (b : debugRingBuffer_t) :
    debug_buffer_is_empty b = false ↔ b.debugHead ≠ b.debugTail := by
  simp [debug_buffer_is_empty]

theorem put_spec (b : debugRingBuffer_t) (c : Char) (hinv : bufInv b)
    (hf : debug_buffer_is_full b = false) :
    bufInv (debug_buffer_put b c).1 ∧ (debug_buffer_put b c).2 = true ∧
      bufContents (debug_buffer_put b c).1 = bufContents b ++ [c] := by
  obtain ⟨sto, hd, tl⟩ := b
  obtain ⟨hh, ht⟩ := hinv
  simp only [DEBUG_BUFFER_SIZE] at hh ht
  rw [is_full_false_iff] at hf
  simp only [DEBUG_BUFFER_SIZE] at hf
  rw [put_eq_of_not_full _ c (by rw [is_full_false_iff]; simpa [DEBUG_BUFFER_SIZE] using hf)]
  dsimp only
  refine ⟨⟨?_, ?_⟩, rfl, ?_⟩
  · show (hd + 1) % DEBUG_BUFFER_SIZE < DEBUG_BUFFER_SIZE
    simp only [DEBUG_BUFFER_SIZE]
    omega
  · show tl < DEBUG_BUFFER_SIZE
    simp only [DEBUG_BUFFER_SIZE]
    omega
  simp only [bufContents, bufCount, DEBUG_BUFFER_SIZE]
  have hn : ((hd + 1) % 100 + 100 - tl) % 100 = (hd + 100 - tl) % 100 + 1 := by
    omega
  rw [hn, List.range_succ, List.map_append]
  congr 1
  · refine List.map_congr_left ?_
    intro i hi
    rw [List.mem_range] at hi
    have hne : ¬((tl + i) % 100 = hd) := by omega
    simp only [List.map_cons, hne, if_false]
  · have heq : (tl + (hd + 100 - tl) % 100) % 100 = hd := by omega
    simp only [List.map_cons, List.map_nil, heq, if_true]

theorem get_spec (b : debugRingBuffer_t) (hinv : bufInv b)
    (he : debug_buffer_is_empty b = false) :
    bufInv (debug_buffer_get b).1 ∧
      (debug_buffer_get b).2 = some (b.debugBuffer b.debugTail) ∧
      bufContents b = b.debugBuffer b.debugTail :: bufContents (debug_buffer_get b).1 := by
  obtain ⟨sto, hd, tl⟩ := b
  obtain ⟨hh, ht⟩ := hinv
  simp only [DEBUG_BUFFER_SIZE] at hh ht
  rw [is_empty_false_iff] at he
  dsimp only at he
  rw [get_eq_of_not_empty _ (by rw [is_empty_false_iff]; exact he)]
  dsimp only
  refine ⟨⟨?_, ?_⟩, rfl, ?_⟩
  · show hd < DEBUG_BUFFER_SIZE
    simp only [DEBUG_BUFFER_SIZE]
    omega
  · show (tl + 1) % DEBUG_BUFFER_SIZE < DEBUG_BUFFER_SIZE
    simp only [DEBUG_BUFFER_SIZE]
    omega
  simp only [bufContents, bufCount, DEBUG_BUFFER_SIZE]
  have hn : (hd + 100 - tl) % 100 = ((hd + 100 - (tl + 1) % 100) % 100) + 1 := by
    omega
  rw [hn, List.range_succ_eq_map]
  simp only [List.map_cons, List.map_map]
  congr 1
  · have h0 : (tl + 0) % 100 = tl := by omega
    rw [h0]
  · refine List.map_congr_left ?_
    intro i hi
    rw [List.mem_range] at hi
    have heq : (tl + Nat.succ i) % 100 = ((tl + 1) % 100 + i) % 100 := by omega
    simp only [Function.comp_apply, heq]

theorem put_keeps_inv (b : debugRingBuffer_t) (c : Char) (hinv : bufInv b) :
    bufInv (debug_buffer_put b c).1 := by
  by_cases hf : debug_buffer_is_full b = true
  · rw [put_eq_of_full b c hf]
    exact hinv
  · exact (put_spec b c hinv (by simpa using hf)).1

theorem get_keeps_inv (b : debugRingBuffer_t) (hinv : bufInv b) :
    bufInv (debug_buffer_get b).1 := by
  by_cases he : debug_buffer_is_empty b = true
  · rw [get_eq_of_empty b he]
    exact hinv
  · exact (get_spec b hinv (by simpa using he)).1

theorem reachable_inv (b : debugRingBuffer_t) (hr : Reachable b) : bufInv b := by
  induction hr with
  | init buf =>
    constructor <;> simp [debug_buffer_init, DEBUG_BUFFER_SIZE]
  | put buf c _ ih => exact put_keeps_inv buf c ih
  | get buf _ ih => exact get_keeps_inv buf ih

theorem bufContents_init (b : debugRingBuffer_t) :
    bufContents (debug_buffer_init b) = [] := by
  simp [bufContents, bufCount, debug_buffer_init]

theorem bufContents_nil_of_empty (b : debugRingBuffer_t) (hinv : bufInv b)
    (he : debug_buffer_is_empty b = true) : bufContents b = [] := by
  obtain ⟨hh, ht⟩ := hinv
  simp only [debug_buffer_is_empty, beq_iff_eq] at he
  simp only [DEBUG_BUFFER_SIZE] at hh ht
  have : bufCount b = 0 := by
    simp only [bufCount, DEBUG_BUFFER_SIZE]
    omega
  simp [bufContents, this]

/-- The central FIFO invariant: a successful run returns, in order, a prefix
of the bytes that were put, with the remaining queued bytes making up the
difference. -/
theorem runOps_spec (ops : List BufOp) :
    ∀ (b bf : debugRingBuffer_t) (outs : List Char), bufInv b →
      runOps b ops = some (bf, outs) →
      bufInv bf ∧ outs ++ bufContents bf = bufContents b ++ putArgs ops := by
  induction ops with
  | nil =>
    intro b bf outs hinv h
    simp only [runOps, Option.some_inj, Prod.mk.injEq] at h
    obtain ⟨rfl, rfl⟩ := h
    exact ⟨hinv, by simp [putArgs]⟩
  | cons op ops ih =>
    intro b bf outs hinv h
    cases op with
    | put c =>
      by_cases hf : debug_buffer_is_full b = true
      · rw [runOps, put_eq_of_full b c hf] at h
        exact absurd h (by simp)
      · replace hf : debug_buffer_is_full b = false := by simpa using hf
        obtain ⟨hinv2, hok, hcont⟩ := put_spec b c hinv hf
        rw [runOps, put_eq_of_not_full b c hf] at h
        have h2 := ih _ bf outs (by
          rw [put_eq_of_not_full b c hf] at hinv2
          exact hinv2) h
        refine ⟨h2.1, ?_⟩
        rw [put_eq_of_not_full b c hf] at hcont
        rw [h2.2, putArgs, hcont]
        simp
    | get =>
      by_cases he : debug_buffer_is_empty b = true
      · rw [runOps, get_eq_of_empty b he] at h
        exact absurd h (by simp)
      · replace he : debug_buffer_is_empty b = false := by simpa using he
        obtain ⟨hinv2, hval, hcont⟩ := get_spec b hinv he
        rw [runOps, get_eq_of_not_empty b he] at h
        simp only [Option.map_eq_some'] at h
        obtain ⟨⟨pb, pouts⟩, hp, hbf⟩ := h
        simp only [Prod.mk.injEq] at hbf
        obtain ⟨hbf1, hbf2⟩ := hbf
        subst hbf1
        subst hbf2
        rw [get_eq_of_not_empty b he] at hinv2 hcont
        have hinv2' : bufInv
            ({ b with debugTail := (b.debugTail + 1) % DEBUG_BUFFER_SIZE }) := hinv2
        have h2 := ih _ pb pouts hinv2' hp
        refine ⟨h2.1, ?_⟩
        have hcont' : bufContents b = b.debugBuffer b.debugTail ::
            bufContents ({ b with debugTail := (b.debugTail + 1) % DEBUG_BUFFER_SIZE }) :=
          hcont
        rw [putArgs, hcont']
        simp only [List.cons_append, List.cons.injEq, true_and]
        exact h2.2

/-- Successive puts from an initialized buffer: as long as at most
`DEBUG_BUFFER_SIZE - 1` bytes are stored, every put succeeds, the head
advances by one per byte and the tail stays at zero. -/
theorem putAll_spec (cs : List Char) :
    ∀ b : debugRingBuffer_t, b.debugTail = 0 →
      b.debugHead + cs.length ≤ DEBUG_BUFFER_SIZE - 1 →
      (putAll b cs).2 = true ∧
        (putAll b cs).1.debugHead = b.debugHead + cs.length ∧
        (putAll b cs).1.debugTail = 0 := by
  induction cs with
  | nil =>
    intro b ht hlen
    simp [putAll, ht]
  | cons c cs ih =>
    intro b ht hlen
    simp only [DEBUG_BUFFER_SIZE, List.length_cons] at hlen
    have hf : debug_buffer_is_full b = false := by
      simp only [debug_buffer_is_full, DEBUG_BUFFER_SIZE, ht, beq_eq_false_iff_ne, ne_eq]
      omega
    simp only [putAll]
    rw [put_eq_of_not_full b c hf]
    have hstep := ih ({ b with
        debugBuffer := fun i => if i = b.debugHead then c else b.debugBuffer i,
        debugHead := (b.debugHead + 1) % DEBUG_BUFFER_SIZE })
      (by exact ht)
      (by
        show (b.debugHead + 1) % DEBUG_BUFFER_SIZE + cs.length ≤ DEBUG_BUFFER_SIZE - 1
        simp only [DEBUG_BUFFER_SIZE]
        omega)
    refine ⟨?_, ?_, hstep.2.2⟩
    · simp [hstep.1]
    · rw [hstep.2.1]
      show (b.debugHead + 1) % DEBUG_BUFFER_SIZE + cs.length =
        b.debugHead + (c :: cs).length
      simp only [DEBUG_BUFFER_SIZE, List.length_cons]
      omega

theorem debugPrintInt_pos (value : Int) (h1 : 0 < value) :
    debugPrintInt value = (intDigits value).reverse := by
  have hnneg : ¬(value < 0) := by omega
  have hnz : ¬(value = 0) := by omega
  unfold debugPrintInt
  simp only [hnneg, if_false, hnz, List.nil_append]

theorem debugPrintInt_neg (value : Int) (h1 : value < 0)
    (h2 : ¬(wrap32 (-value) = 0)) :
    debugPrintInt value = '-' :: (intDigits (wrap32 (-value))).reverse := by
  unfold debugPrintInt
  simp only [h1, if_true, h2, if_false, List.singleton_append]

theorem intDigits_length_le (k : Nat) :
    ∀ v : Int, v < 10 ^ k → (intDigits v).length ≤ k := by
  induction k with
  | zero =>
    intro v hv
    rw [intDigits_nil v (by simp only [pow_zero] at hv; omega)]
    simp
  | succ k ih =>
    intro v hv
    rw [show (10:Int) ^ (k + 1) = 10 * 10 ^ k by ring] at hv
    by_cases hpos : 0 < v
    · rw [intDigits_step v hpos]
      simp only [List.length_cons]
      have hdiv : v / 10 < 10 ^ k := by omega
      exact Nat.succ_le_succ (ih _ hdiv)
    · rw [intDigits_nil v (by omega)]
      simp

/-! ## Claims -/

/-- Claim C1: for every sequence of interleaved `put`/`get` calls starting
from an initialized buffer in which no put hits a full buffer and no get hits
an empty buffer (certified by `runOps` returning `some`), the bytes returned
by the gets, followed by the bytes still queued, are exactly the bytes passed
to the puts, in order; in particular if the final buffer is empty, the gets
returned exactly the put bytes in FIFO order. -/
theorem c1_fifo_order (ops : List BufOp) (b0 bf : debugRingBuffer_t)
    (outs : List Char) (h : runOps (debug_buffer_init b0) ops = some (bf, outs)) :
    outs ++ bufContents bf = putArgs ops ∧
      (debug_buffer_is_empty bf = true → outs = putArgs ops) := by
  have hinv0 : bufInv (debug_buffer_init b0) := reachable_inv _ (Reachable.init b0)
  have h2 := runOps_spec ops _ bf outs hinv0 h
  rw [bufContents_init] at h2
  obtain ⟨hinvf, heq⟩ := h2
  simp only [List.nil_append] at heq
  refine ⟨heq, ?_⟩
  intro hemp
  have hnil := bufContents_nil_of_empty bf hinvf hemp
  rw [hnil, List.append_nil] at heq
  exact heq

/-- Witness for C1 at a concrete six-operation run. -/
theorem c1_fifo_order_witness :
    sampleRun.2 ++ bufContents sampleRun.1 = putArgs sampleOps ∧
      (debug_buffer_is_empty sampleRun.1 = true → sampleRun.2 = putArgs sampleOps) :=
  c1_fifo_order sampleOps sampleBuffer sampleRun.1 sampleRun.2 rfl

/-- Claim C2: from an initialized buffer of capacity `DEBUG_BUFFER_SIZE`,
`DEBUG_BUFFER_SIZE - 1` puts all succeed and leave the buffer full; a further
put returns `false` and leaves head, tail and storage completely unchanged;
and a put on any non-full buffer stores the byte at `storage[head]`, advances
the head to `(head + 1) % DEBUG_BUFFER_SIZE` (tail untouched) and returns
`true`. -/
theorem c2_capacity_invariant (cs : List Char) (b0 bnf : debugRingBuffer_t)
    (c d : Char) (hlen : cs.length = DEBUG_BUFFER_SIZE - 1)
    (hnf : debug_buffer_is_full bnf = false) :
    (putAll (debug_buffer_init b0) cs).2 = true ∧
      debug_buffer_is_full (putAll (debug_buffer_init b0) cs).1 = true ∧
      debug_buffer_put (putAll (debug_buffer_init b0) cs).1 c =
        ((putAll (debug_buffer_init b0) cs).1, false) ∧
      (debug_buffer_put bnf d).2 = true ∧
      (debug_buffer_put bnf d).1.debugBuffer bnf.debugHead = d ∧
      (debug_buffer_put bnf d).1.debugHead = (bnf.debugHead + 1) % DEBUG_BUFFER_SIZE ∧
      (debug_buffer_put bnf d).1.debugTail = bnf.debugTail := by
  have h0t : (debug_buffer_init b0).debugTail = 0 := rfl
  have h0h : (debug_buffer_init b0).debugHead = 0 := rfl
  have hp := putAll_spec cs (debug_buffer_init b0) h0t
    (by rw [h0h, hlen]; simp)
  obtain ⟨hok, hhd, htl⟩ := hp
  have hfull : debug_buffer_is_full (putAll (debug_buffer_init b0) cs).1 = true := by
    simp only [debug_buffer_is_full, hhd, htl, h0h, hlen, DEBUG_BUFFER_SIZE]
    decide
  refine ⟨hok, hfull, put_eq_of_full _ c hfull, ?_, ?_, ?_, ?_⟩
  · rw [put_eq_of_not_full bnf d hnf]
  · rw [put_eq_of_not_full bnf d hnf]
    simp
  · rw [put_eq_of_not_full bnf d hnf]
  · rw [put_eq_of_not_full bnf d hnf]

/-- Witness for C2: 99 copies of a byte fill the buffer; the initialized
sample buffer is not full. -/
theorem c2_capacity_invariant_witness :
    (putAll (debug_buffer_init sampleBuffer) sampleFill).2 = true ∧
      debug_buffer_is_full (putAll (debug_buffer_init sampleBuffer) sampleFill).1 = true ∧
      debug_buffer_put (putAll (debug_buffer_init sampleBuffer) sampleFill).1 'x' =
        ((putAll (debug_buffer_init sampleBuffer) sampleFill).1, false) ∧
      (debug_buffer_put (debug_buffer_init sampleBuffer) 'y').2 = true ∧
      (debug_buffer_put (debug_buffer_init sampleBuffer) 'y').1.debugBuffer
        (debug_buffer_init sampleBuffer).debugHead = 'y' ∧
      (debug_buffer_put (debug_buffer_init sampleBuffer) 'y').1.debugHead =
        ((debug_buffer_init sampleBuffer).debugHead + 1) % DEBUG_BUFFER_SIZE ∧
      (debug_buffer_put (debug_buffer_init sampleBuffer) 'y').1.debugTail =
        (debug_buffer_init sampleBuffer).debugTail :=
  c2_capacity_invariant sampleFill sampleBuffer (debug_buffer_init sampleBuffer)
    'x' 'y' (by decide) (by decide)

/-- Claim C3: in every state reachable from an initialized buffer by the
ring-buffer operations, head and tail are below `DEBUG_BUFFER_SIZE`,
`is_empty` holds iff `head = tail`, `is_full` holds iff
`(head + 1) % DEBUG_BUFFER_SIZE = tail`, and (capacity 100 > 1) the buffer is
never simultaneously empty and full. -/
theorem c3_reachable_invariants (b : debugRingBuffer_t) (hr : Reachable b) :
    (b.debugHead < DEBUG_BUFFER_SIZE ∧ b.debugTail < DEBUG_BUFFER_SIZE) ∧
      (debug_buffer_is_empty b = true ↔ b.debugHead = b.debugTail) ∧
      (debug_buffer_is_full b = true ↔
        (b.debugHead + 1) % DEBUG_BUFFER_SIZE = b.debugTail) ∧
      ¬(debug_buffer_is_empty b = true ∧ debug_buffer_is_full b = true) := by
  have hinv := reachable_inv b hr
  refine ⟨hinv, by simp [debug_buffer_is_empty], by simp [debug_buffer_is_full], ?_⟩
  rintro ⟨he, hf⟩
  simp only [debug_buffer_is_empty, beq_iff_eq] at he
  simp only [debug_buffer_is_full, beq_iff_eq] at hf
  obtain ⟨hh, ht⟩ := hinv
  simp only [DEBUG_BUFFER_SIZE] at hh ht hf
  omega

/-- Witness for C3 at the initialized sample buffer. -/
theorem c3_reachable_invariants_witness :
    ((debug_buffer_init sampleBuffer).debugHead < DEBUG_BUFFER_SIZE ∧
        (debug_buffer_init sampleBuffer).debugTail < DEBUG_BUFFER_SIZE) ∧
      (debug_buffer_is_empty (debug_buffer_init sampleBuffer) = true ↔
        (debug_buffer_init sampleBuffer).debugHead =
          (debug_buffer_init sampleBuffer).debugTail) ∧
      (debug_buffer_is_full (debug_buffer_init sampleBuffer) = true ↔
        ((debug_buffer_init sampleBuffer).debugHead + 1) % DEBUG_BUFFER_SIZE =
          (debug_buffer_init sampleBuffer).debugTail) ∧
      ¬(debug_buffer_is_empty (debug_buffer_init sampleBuffer) = true ∧
        debug_buffer_is_full (debug_buffer_init sampleBuffer) = true) :=
  c3_reachable_invariants (debug_buffer_init sampleBuffer) (Reachable.init sampleBuffer)

/-- Claim C4: `uart1_print_char` performs the arm operation (setting
`UDRIE1`) iff the buffer was empty immediately before its put — so a second
call while the buffer is already non-empty performs no arm — and never
disarms; the drain ISR performs the disarm operation (clearing `UDRIE1`) iff
it finds the buffer empty, and never arms.  The `udrie` flag transitions
accordingly. -/
theorem c4_arm_disarm_edges (s : DriverState) (d : Char) :
    (DevOp.arm ∈ (uart1_print_char s d).2 ↔ debug_buffer_is_empty s.buf = true) ∧
      DevOp.disarm ∉ (uart1_print_char s d).2 ∧
      (uart1_print_char s d).1.udrie =
        (if debug_buffer_is_empty s.buf = true then true else s.udrie) ∧
      (DevOp.disarm ∈ (udre_isr s).2 ↔ debug_buffer_is_empty s.buf = true) ∧
      DevOp.arm ∉ (udre_isr s).2 ∧
      (udre_isr s).1.udrie =
        (if debug_buffer_is_empty s.buf = true then false else s.udrie) := by
  by_cases hemp : debug_buffer_is_empty s.buf = true
  · rw [uart1_print_char, uart1_critical]
    rw [udre_isr.eq_def, get_eq_of_empty s.buf hemp]
    simp [cli, sei, hemp]
  · replace hemp : debug_buffer_is_empty s.buf = false := by simpa using hemp
    rw [uart1_print_char, uart1_critical]
    rw [udre_isr.eq_def, get_eq_of_not_empty s.buf hemp]
    simp [cli, sei, hemp]

/-- Claim C5, counterexample: `uart1_print_char` ends with `sei()`, which sets
the global interrupt flag unconditionally; called in a state where interrupts
are disabled, the flag is not restored to its entry value. -/
theorem c5_not_restored :
    ¬((uart1_print_char sampleState 'x').1.intEnabled = sampleState.intEnabled) := by
  decide

/-- Claim C5 as amended: the global interrupt flag is disabled on entry to
the critical section (`cli()`), stays disabled throughout it — including when
`put` silently drops the byte — and is set to enabled on the single exit path
(`sei()`); it is therefore restored to its entry value whenever interrupts
were enabled at entry, but not when they were disabled. -/
theorem c5_interrupt_flag (s : DriverState) (d : Char) :
    (cli s).intEnabled = false ∧
      (uart1_critical (cli s) d).1.intEnabled = false ∧
      (uart1_print_char s d).1.intEnabled = true := by
  refine ⟨rfl, ?_, ?_⟩
  · by_cases hemp : debug_buffer_is_empty s.buf = true <;>
      simp [uart1_critical, cli, hemp]
  · simp [uart1_print_char, sei]

/-- Claim C6: `debugPrintInt` produces exactly the decimal ASCII byte
sequences for 0, -1, 12345, -6789 and 2147483647: a leading minus sign for
negative inputs, digits most-significant-first, no leading zeros. -/
theorem c6_print_int_round_trip :
    debugPrintInt 0 = ['0'] ∧
      debugPrintInt (-1) = ['-', '1'] ∧
      debugPrintInt 12345 = ['1', '2', '3', '4', '5'] ∧
      debugPrintInt (-6789) = ['-', '6', '7', '8', '9'] ∧
      debugPrintInt 2147483647 =
        ['2', '1', '4', '7', '4', '8', '3', '6', '4', '7'] := by
  refine ⟨?_, ?_, ?_, ?_, ?_⟩
  · unfold debugPrintInt
    simp
  · rw [debugPrintInt_neg (-1) (by norm_num) (by norm_num [wrap32]),
      show wrap32 (-(-1)) = 1 from by norm_num [wrap32],
      intDigits_step _ (by norm_num), intDigits_nil _ (by norm_num)]
    decide
  · rw [debugPrintInt_pos 12345 (by norm_num),
      intDigits_step _ (by norm_num), intDigits_step _ (by norm_num),
      intDigits_step _ (by norm_num), intDigits_step _ (by norm_num),
      intDigits_step _ (by norm_num), intDigits_nil _ (by norm_num)]
    decide
  · rw [debugPrintInt_neg (-6789) (by norm_num) (by norm_num [wrap32]),
      show wrap32 (-(-6789)) = 6789 from by norm_num [wrap32],
      intDigits_step _ (by norm_num), intDigits_step _ (by norm_num),
      intDigits_step _ (by norm_num), intDigits_step _ (by norm_num),
      intDigits_nil _ (by norm_num)]
    decide
  · rw [debugPrintInt_pos 2147483647 (by norm_num),
      intDigits_step _ (by norm_num), intDigits_step _ (by norm_num),
      intDigits_step _ (by norm_num), intDigits_step _ (by norm_num),
      intDigits_step _ (by norm_num), intDigits_step _ (by norm_num),
      intDigits_step _ (by norm_num), intDigits_step _ (by norm_num),
      intDigits_step _ (by norm_num), intDigits_step _ (by norm_num),
      intDigits_nil _ (by norm_num)]
    decide

/-- Claim C8: for `INT32_MIN` the wrapping negation gives back `INT32_MIN`,
which is not positive, so the digit loop never runs and `debugPrintInt`
emits exactly the single byte `'-'`. -/
theorem c8_int32_min_prints_minus_only :
    debugPrintInt (-2147483648) = ['-'] := by
  rw [debugPrintInt_neg (-2147483648) (by norm_num) (by norm_num [wrap32]),
    show wrap32 (-(-2147483648)) = -2147483648 from by norm_num [wrap32],
    intDigits_nil _ (by norm_num)]
  decide

/-- Claim C9: `debug_buffer_get` on an empty buffer returns no byte and
leaves head, tail and the storage array unchanged. -/
theorem c9_get_empty_no_mutation (b : debugRingBuffer_t)
    (he : debug_buffer_is_empty b = true) :
    debug_buffer_get b = (b, none) ∧
      (debug_buffer_get b).1.debugHead = b.debugHead ∧
      (debug_buffer_get b).1.debugTail = b.debugTail ∧
      (debug_buffer_get b).1.debugBuffer = b.debugBuffer := by
  have hg := get_eq_of_empty b he
  rw [hg]
  exact ⟨rfl, rfl, rfl, rfl⟩

/-- Witness for C9 at the initialized sample buffer. -/
theorem c9_get_empty_no_mutation_witness :
    debug_buffer_get (debug_buffer_init sampleBuffer) =
        (debug_buffer_init sampleBuffer, none) ∧
      (debug_buffer_get (debug_buffer_init sampleBuffer)).1.debugHead =
        (debug_buffer_init sampleBuffer).debugHead ∧
      (debug_buffer_get (debug_buffer_init sampleBuffer)).1.debugTail =
        (debug_buffer_init sampleBuffer).debugTail ∧
      (debug_buffer_get (debug_buffer_init sampleBuffer)).1.debugBuffer =
        (debug_buffer_init sampleBuffer).debugBuffer :=
  c9_get_empty_no_mutation (debug_buffer_init sampleBuffer) (by decide)

/-- Claim C10: for every `int32_t` input, the value fed to the digit loop of
`debugPrintInt` (after the sign handling with wrapping negation) yields at
most 10 digits, so every `digits[count++]` write stays within the
10-element local array. -/
theorem c10_digit_writes_in_bounds (value : Int) (h1 : -(2 ^ 31) ≤ value)
    (h2 : value < 2 ^ 31) :
    (intDigits (if value < 0 then wrap32 (-value) else value)).length ≤ 10 := by
  apply intDigits_length_le 10
  have h10 : (10:Int) ^ 10 = 10000000000 := by norm_num
  have h31 : (2:Int) ^ 31 = 2147483648 := by norm_num
  have h32 : (2:Int) ^ 32 = 4294967296 := by norm_num
  rw [h31] at h1 h2
  by_cases hv : value < 0
  · simp only [hv, if_true, wrap32, h31, h32, h10]
    omega
  · simp only [hv, if_false, h10]
    omega

/-- Witness for C10 at `INT32_MAX`, the input with the most digits. -/
theorem c10_digit_writes_in_bounds_witness :
    (intDigits (if (2147483647 : Int) < 0 then wrap32 (-2147483647)
      else 2147483647)).length ≤ 10 :=
  c10_digit_writes_in_bounds 2147483647 (by norm_num) (by norm_num)

end DebugSerial
